import Mathlib

/-!
Verification development for the pdf-splitter service (src/dist/index.js).

The JavaScript source is shallowly embedded: pure helpers become Lean
functions, thrown exceptions become `Except.error`, the in-memory job
registry becomes an association list with `Map.set` semantics, filesystem
side effects are tracked as explicit traces / sets of paths, and PDF
documents are abstract lists of pages.  Machine numbers from JS are
modelled as `Int` (page numbers, timestamps).
-/

deriving instance DecidableEq for Except

namespace PdfSplitter

/-- A requested page range (`PageRange` in `index.d.ts`): a caller-supplied
identifier plus 1-indexed inclusive page numbers. -/
structure PageRange where
  submission_id : String
  start_page : Int
  end_page : Int
  deriving DecidableEq, Repr

/-- The five validation rules of `validatePageRange` (src/dist/index.js:68-89),
in source order. -/
inductive RangeRule where
  | emptySubmissionId
  | startPageTooSmall
  | endBeforeStart
  | startBeyondTotal
  | endBeyondTotal
  deriving DecidableEq, Repr

/-- How a validation error names the offending range: by list index
(rule 1, where the identifier itself is broken) or by `submission_id`
(rules 2-5). -/
inductive RangeRef where
  | byIndex (i : Nat)
  | bySubmissionId (s : String)
  deriving DecidableEq, Repr

/-- The data carried by the error message thrown from `validatePageRange`:
which range is named and which rule was broken. -/
structure RangeError where
  ref : RangeRef
  rule : RangeRule
  deriving DecidableEq, Repr

/-- Model of JS `String.prototype.trim`: strip leading and trailing
whitespace characters. -/
def trimString (s : String) : String :=
  ⟨((s.data.dropWhile Char.isWhitespace).reverse.dropWhile Char.isWhitespace).reverse⟩

/-- Embedding of `validatePageRange` (src/dist/index.js:68-89).  The JS
function throws on the first failing check; this is modelled as
`Except.error` carrying the data of the message.  The checks appear in
source order.  (JS `!submission_id` on a string is emptiness, hence the
disjunction in the first check.) -/
def validatePageRange (range : PageRange) (totalPages : Int) (index : Nat) :
    Except RangeError Unit :=
  if range.submission_id = "" ∨ trimString range.submission_id = "" then
    .error ⟨.byIndex index, .emptySubmissionId⟩
  else if range.start_page < 1 then
    .error ⟨.bySubmissionId range.submission_id, .startPageTooSmall⟩
  else if range.end_page < range.start_page then
    .error ⟨.bySubmissionId range.submission_id, .endBeforeStart⟩
  else if range.start_page > totalPages then
    .error ⟨.bySubmissionId range.submission_id, .startBeyondTotal⟩
  else if range.end_page > totalPages then
    .error ⟨.bySubmissionId range.submission_id, .endBeyondTotal⟩
  else
    .ok ()

/-- Embedding of the validation pre-pass loop in `splitPdfFromBuffer`
(src/dist/index.js:200-202): ranges are checked in list order starting at
index `k`; the first throw aborts the loop. -/
def validateRangesAux (totalPages : Int) : Nat → List PageRange → Except RangeError Unit
  | _, [] => .ok ()
  | k, r :: rs =>
    match validatePageRange r totalPages k with
    | .error e => .error e
    | .ok _ => validateRangesAux totalPages (k + 1) rs

/-- The validation pre-pass over a whole range list, starting at index 0. -/
def validateRanges (ranges : List PageRange) (totalPages : Int) : Except RangeError Unit :=
  validateRangesAux totalPages 0 ranges

/-- Spec-side: a range satisfying all five rules of §4.1. -/
def ValidRange (r : PageRange) (totalPages : Int) : Prop :=
  trimString r.submission_id ≠ "" ∧ 1 ≤ r.start_page ∧ r.start_page ≤ r.end_page ∧
    r.start_page ≤ totalPages ∧ r.end_page ≤ totalPages

instance (r : PageRange) (t : Int) : Decidable (ValidRange r t) := by
  unfold ValidRange; infer_instance

/-- Spec-side: the first rule broken by `r`, following the spec's stated
order (1)-(5); `none` when the range is valid. -/
def firstBrokenRule (r : PageRange) (totalPages : Int) : Option RangeRule :=
  if trimString r.submission_id = "" then some .emptySubmissionId
  else if r.start_page < 1 then some .startPageTooSmall
  else if r.end_page < r.start_page then some .endBeforeStart
  else if r.start_page > totalPages then some .startBeyondTotal
  else if r.end_page > totalPages then some .endBeyondTotal
  else none

/-- Spec-side: the error the spec requires for range `r` at index `i`
broken by `rule`: named by index for rule 1, by `submission_id` otherwise. -/
def expectedError (i : Nat) (r : PageRange) (rule : RangeRule) : RangeError :=
  match rule with
  | .emptySubmissionId => ⟨.byIndex i, .emptySubmissionId⟩
  | rule => ⟨.bySubmissionId r.submission_id, rule⟩

lemma trimString_empty : trimString "" = "" := rfl

lemma empty_check_iff (s : String) : (s = "" ∨ trimString s = "") ↔ trimString s = "" := by
  constructor
  · rintro (rfl | h)
    · exact trimString_empty
    · exact h
  · exact Or.inr

lemma validatePageRange_ok_iff (r : PageRange) (t : Int) (i : Nat) :
    validatePageRange r t i = .ok () ↔ ValidRange r t := by
  unfold validatePageRange ValidRange
  by_cases h1 : trimString r.submission_id = ""
  · rw [if_pos ((empty_check_iff _).mpr h1)]
    simp [h1]
  · rw [if_neg (fun hc => h1 ((empty_check_iff _).mp hc))]
    split_ifs with h2 h3 h4 h5 <;> simp [h1] <;> omega

lemma validatePageRange_error_iff (r : PageRange) (t : Int) (i : Nat) (e : RangeError) :
    validatePageRange r t i = .error e ↔
      ∃ rule, firstBrokenRule r t = some rule ∧ e = expectedError i r rule := by
  unfold validatePageRange firstBrokenRule
  by_cases h1 : trimString r.submission_id = ""
  · rw [if_pos ((empty_check_iff _).mpr h1), if_pos h1]
    simp [expectedError, eq_comm]
  · rw [if_neg (fun hc => h1 ((empty_check_iff _).mp hc)), if_neg h1]
    split_ifs with h2 h3 h4 h5 <;> simp [expectedError, eq_comm]

lemma validateRangesAux_ok_iff (totalPages : Int) :
    ∀ (ranges : List PageRange) (k : Nat),
      (validateRangesAux totalPages k ranges = .ok () ↔
        ∀ r ∈ ranges, ValidRange r totalPages)
  | [], k => by simp [validateRangesAux]
  | r :: rs, k => by
    unfold validateRangesAux
    cases h : validatePageRange r totalPages k with
    | error e =>
      simp only [List.mem_cons]
      constructor
      · intro h2; cases h2
      · intro h2
        have := (validatePageRange_ok_iff r totalPages k).mpr (h2 r (Or.inl rfl))
        rw [h] at this; cases this
    | ok u =>
      cases u
      have hr := (validatePageRange_ok_iff r totalPages k).mp h
      rw [validateRangesAux_ok_iff totalPages rs (k + 1)]
      simp only [List.mem_cons]
      constructor
      · rintro hall s (rfl | hs)
        · exact hr
        · exact hall s hs
      · intro hall s hs
        exact hall s (Or.inr hs)

lemma validateRangesAux_error (totalPages : Int) :
    ∀ (ranges : List PageRange) (k : Nat) (e : RangeError),
      validateRangesAux totalPages k ranges = .error e →
      ∃ i, ∃ hi : i < ranges.length,
        (∀ j (hj : j < i), ValidRange (ranges.get ⟨j, Nat.lt_trans hj hi⟩) totalPages)
        ∧ ∃ rule, firstBrokenRule (ranges.get ⟨i, hi⟩) totalPages = some rule
            ∧ e = expectedError (k + i) (ranges.get ⟨i, hi⟩) rule
  | [], k, e => by simp [validateRangesAux]
  | r :: rs, k, e => by
    unfold validateRangesAux
    cases h : validatePageRange r totalPages k with
    | error e0 =>
      intro he
      injection he with he0
      refine ⟨0, Nat.succ_pos _, ?_, ?_⟩
      · intro j hj; cases hj
      · obtain ⟨rule, hrule, herr⟩ := (validatePageRange_error_iff r totalPages k e0).mp h
        exact ⟨rule, hrule, by simpa using he0 ▸ herr⟩
    | ok u =>
      cases u
      intro he
      obtain ⟨i, hi, hpre, rule, hrule, herr⟩ :=
        validateRangesAux_error totalPages rs (k + 1) e he
      refine ⟨i + 1, Nat.succ_lt_succ hi, ?_, rule, hrule, ?_⟩
      · intro j hj
        cases j with
        | zero => simpa using (validatePageRange_ok_iff r totalPages k).mp h
        | succ j0 => simpa using hpre j0 (Nat.lt_of_succ_lt_succ hj)
      · simpa [Nat.add_assoc, Nat.add_comm 1 i] using herr

/-! ## Filesystem paths

`join(outputDir, fileName)` from Node's `path` module concatenates with
the separator and then normalizes `.`, `..` and empty components.  A path
is modelled as its list of components (each a list of characters),
rooted at the filesystem root. -/

/-- A filesystem path as a list of components. -/
abbrev PathC := List (List Char)

/-- Split a file name on the `/` separator. -/
def splitSlash : List Char → List (List Char)
  | [] => [[]]
  | c :: rest =>
    match splitSlash rest with
    | [] => [[]]
    | s :: ss => if c = '/' then [] :: s :: ss else (c :: s) :: ss

/-- The normalization step of Node `path.join` on an absolute path: empty
and `.` components vanish, `..` pops the previous component. -/
def normComps (cs : List (List Char)) : PathC :=
  cs.foldl
    (fun acc c =>
      if c = [] ∨ c = ['.'] then acc
      else if c = ['.', '.'] then acc.dropLast
      else acc ++ [c])
    []

/-- Model of `join(outputDir, fileName)` (src/dist/index.js:222) for an
already-normalized `outputDir`. -/
def joinPath (dir : PathC) (fileName : List Char) : PathC :=
  normComps (dir ++ splitSlash fileName)

/-- A clean path component: nonempty, not `.`, not `..`.  The directories
the service creates (`<tmpdir>/pdf-splitter-output/<jobId>`) have only
clean components. -/
def CleanComp (c : List Char) : Prop :=
  c ≠ [] ∧ c ≠ ['.'] ∧ c ≠ ['.', '.']

instance (c : List Char) : Decidable (CleanComp c) := by
  unfold CleanComp
  infer_instance

lemma normComps_foldl_clean :
    ∀ (l : List (List Char)), (∀ c ∈ l, CleanComp c) → ∀ (acc : List (List Char)),
      (l.foldl
        (fun acc c =>
          if c = [] ∨ c = ['.'] then acc
          else if c = ['.', '.'] then acc.dropLast
          else acc ++ [c])
        acc) = acc ++ l
  | [], _, acc => by simp
  | c :: cs, h, acc => by
    obtain ⟨h1, h2, h3⟩ := h c (List.mem_cons_self c cs)
    have hrest : ∀ x ∈ cs, CleanComp x := fun x hx => h x (List.mem_cons_of_mem c hx)
    simp only [List.foldl_cons]
    rw [if_neg (by simp [h1, h2]), if_neg h3,
      normComps_foldl_clean cs hrest (acc ++ [c])]
    simp

lemma normComps_clean (l : List (List Char)) (h : ∀ c ∈ l, CleanComp c) :
    normComps l = l := by
  simpa using normComps_foldl_clean l h []

lemma splitSlash_no_sep :
    ∀ (cs : List Char), '/' ∉ cs → splitSlash cs = [cs]
  | [], _ => rfl
  | c :: rest, h => by
    have hc : c ≠ '/' := fun hc => h (hc ▸ List.mem_cons_self c rest)
    have hrest : '/' ∉ rest := fun hr => h (List.mem_cons_of_mem c hr)
    unfold splitSlash
    rw [splitSlash_no_sep rest hrest]
    simp [fun hc0 => hc hc0]

/-! ## Extraction adapter (`splitPdfFromBuffer`, src/dist/index.js:188-263)

A PDF document is abstracted to its list of pages. -/

/-- The 0-indexed page numbers handed to `copyPages`
(src/dist/index.js:214): `Array.from({length: end-start+1}, (_, i) => start-1+i)`.
The validated 1-indexed `Int` bounds are converted to `Nat` indices. -/
def pageIndices (start_page end_page : Int) : List Nat :=
  (List.range (end_page - start_page + 1).toNat).map
    (fun i => (start_page - 1).toNat + i)

/-- Model of `newPdf.copyPages(sourcePdf, pageIndices)` followed by an
`addPage` per copied page: the source's pages at the given indices, in
the given order.  pdf-lib throws on an out-of-range index, modelled as
`none`. -/
def extractPages {α : Type} (source : List α) (indices : List Nat) : Option (List α) :=
  indices.mapM (fun i => source.get? i)

/-- One element of the `results` array built by `splitPdfFromBuffer`
(src/dist/index.js:253-260). -/
structure SplitItem where
  submission_id : String
  outputPath : PathC
  fileName : String
  pageCount : Int
  r2Url : Option String
  r2Key : Option String
  deriving DecidableEq, Repr

/-- The errors `splitPdfFromBuffer` can throw: parse failure (line 195),
a range validation failure (line 201), or a page-copy failure. -/
inductive SplitError where
  | parseError
  | rangeError (e : RangeError)
  | extractionError
  deriving DecidableEq, Repr

/-- Modelled from the spec: `generateR2Key` lives in `r2-client.js`, which
is not among the sources; per §6 the object store consumes a per-artifact
key derived from the job and file name.  No claim depends on the exact
scheme. -/
def generateR2Key (jobId fileName : String) : String :=
  jobId ++ "/" ++ fileName

/-- Side-effect trace of one `splitPdfFromBuffer` call: the local writes
(path and document contents) in order, and the R2 keys for which an
upload was attempted. -/
structure SplitTrace (α : Type) where
  writes : List (PathC × List α)
  uploads : List String
  deriving DecidableEq, Repr

/-- The per-range loop of `splitPdfFromBuffer` (src/dist/index.js:207-261):
extract the range's page span, write `<submission_id>.pdf` into the
output directory, attempt the R2 upload when `uploadToR2Storage && R2_ENABLED`,
and accumulate the result entries.  `uploadOracle` models the outcome of
`uploadToR2` (`some url` on success, `none` for a swallowed failure). -/
def processRanges {α : Type} (source : List α) (outputDir : PathC) (jobId : String)
    (uploadToR2Storage r2Enabled : Bool) (uploadOracle : String → Option String) :
    List PageRange → Except SplitError (List SplitItem) × SplitTrace α
  | [] => (.ok [], ⟨[], []⟩)
  | r :: rs =>
    match extractPages source (pageIndices r.start_page r.end_page) with
    | none => (.error .extractionError, ⟨[], []⟩)
    | some doc =>
      let fileName := r.submission_id ++ ".pdf"
      let outputPath := joinPath outputDir fileName.data
      let keyAttempts : List String :=
        if uploadToR2Storage && r2Enabled then [generateR2Key jobId fileName] else []
      let r2Key : Option String :=
        if uploadToR2Storage && r2Enabled then some (generateR2Key jobId fileName) else none
      let r2Url : Option String :=
        if uploadToR2Storage && r2Enabled then uploadOracle (generateR2Key jobId fileName)
        else none
      match processRanges source outputDir jobId uploadToR2Storage r2Enabled uploadOracle rs with
      | (.error e, tr) =>
        (.error e, ⟨(outputPath, doc) :: tr.writes, keyAttempts ++ tr.uploads⟩)
      | (.ok items, tr) =>
        (.ok ({ submission_id := r.submission_id, outputPath := outputPath,
                fileName := fileName, pageCount := r.end_page - r.start_page + 1,
                r2Url := r2Url, r2Key := r2Key } :: items),
         ⟨(outputPath, doc) :: tr.writes, keyAttempts ++ tr.uploads⟩)

/-- Embedding of `splitPdfFromBuffer` (src/dist/index.js:188-263).  The PDF
buffer is abstracted to `Option (List α)`: `none` when `PDFDocument.load`
rejects.  Returns the thrown error or the total page count with the
result entries, together with the trace of local writes and attempted
uploads. -/
def splitPdfFromBuffer {α : Type} (pdfBuffer : Option (List α)) (ranges : List PageRange)
    (outputDir : PathC) (jobId : String) (uploadToR2Storage r2Enabled : Bool)
    (uploadOracle : String → Option String) :
    Except SplitError (Int × List SplitItem) × SplitTrace α :=
  match pdfBuffer with
  | none => (.error .parseError, ⟨[], []⟩)
  | some source =>
    match validateRanges ranges (source.length : Int) with
    | .error e => (.error (.rangeError e), ⟨[], []⟩)
    | .ok _ =>
      match processRanges source outputDir jobId uploadToR2Storage r2Enabled uploadOracle ranges with
      | (.error e, tr) => (.error e, tr)
      | (.ok items, tr) => (.ok ((source.length : Int), items), tr)

lemma mapM_get_range {α : Type} (source : List α) :
    ∀ (n s0 : Nat), s0 + n ≤ source.length →
      ((List.range n).map (fun i => s0 + i)).mapM (fun i => source.get? i) =
        some ((source.drop s0).take n)
  | 0, s0, _ => by simp [List.mapM, List.mapM.loop]
  | n + 1, s0, h => by
    have hs0 : s0 < source.length := by omega
    rw [List.range_succ_eq_map, List.map_cons, List.map_map, List.mapM_cons]
    have hmap : (List.range n).map ((fun i => s0 + i) ∘ Nat.succ) =
        (List.range n).map (fun i => (s0 + 1) + i) :=
      List.map_congr_left (fun i _ => by simp [Function.comp]; omega)
    have hget : source.get? s0 = some (source.get ⟨s0, hs0⟩) := List.get?_eq_get hs0
    have hdrop : source.drop s0 = source.get ⟨s0, hs0⟩ :: source.drop (s0 + 1) :=
      List.drop_eq_getElem_cons hs0
    have hrec := mapM_get_range source n (s0 + 1) (by omega)
    rw [hmap, hrec]
    simp only [Nat.add_zero]
    rw [hget]
    have htake : List.take (n + 1) (List.drop s0 source) =
        source.get ⟨s0, hs0⟩ :: List.take n (List.drop (s0 + 1) source) := by
      rw [hdrop, List.take_succ_cons]
    rw [htake]
    rfl

lemma extractPages_eq {α : Type} (source : List α) (r : PageRange)
    (h1 : 1 ≤ r.start_page) (h2 : r.start_page ≤ r.end_page)
    (h3 : r.end_page ≤ (source.length : Int)) :
    extractPages source (pageIndices r.start_page r.end_page) =
      some ((source.drop (r.start_page - 1).toNat).take
        (r.end_page - r.start_page + 1).toNat) := by
  unfold extractPages pageIndices
  exact mapM_get_range source _ _ (by omega)

/-! ## Manifest and job registry -/

/-- One element of the manifest `results` array (src/dist/index.js:373-378). -/
structure ManifestEntry where
  submission_id : String
  fileName : String
  pageCount : Int
  download_url : String
  deriving DecidableEq, Repr

/-- The manifest derived once at job creation (src/dist/index.js:370-379). -/
structure Manifest where
  totalPages : Int
  submissionCount : Nat
  results : List ManifestEntry
  deriving DecidableEq, Repr

/-- A record of the job registry (src/dist/index.js:437-443). -/
structure JobRecord where
  jobId : String
  directory : String
  createdAt : Int
  manifest : Manifest
  r2Keys : List String
  deriving DecidableEq, Repr

/-- The in-memory job registry (src/dist/index.js:28): a JS `Map` from job
id to record, modelled as an association list with `Map.set`
(insert-or-overwrite) semantics. -/
abbrev Registry := List (String × JobRecord)

/-- JS `jobRegistry.get(jobId)`. -/
def regGet (reg : Registry) (jobId : String) : Option JobRecord :=
  (reg.find? (fun p => p.1 == jobId)).map (fun p => p.2)

/-- JS `jobRegistry.set(jobId, rec)` (src/dist/index.js:437): insert, or
overwrite the record already stored under this key. -/
def regSet (reg : Registry) (jobId : String) (rec0 : JobRecord) : Registry :=
  if reg.any (fun p => p.1 == jobId) then
    reg.map (fun p => if p.1 == jobId then (jobId, rec0) else p)
  else
    reg ++ [(jobId, rec0)]

/-- JS `jobRegistry.delete(jobId)`. -/
def regDelete (reg : Registry) (jobId : String) : Registry :=
  reg.filter (fun p => !(p.1 == jobId))

/-- Job retention time (src/dist/index.js:30): 60 minutes in milliseconds. -/
def JOB_RETENTION_MS : Int := 60 * 60 * 1000

/-- The server-side state the handlers act on: the registry, the job
directories present on local disk, and the keys ever uploaded to the
remote store (never touched by cleanup). -/
structure ServerState where
  registry : Registry
  localDirs : List String
  remoteKeys : List String
  deriving DecidableEq, Repr

/-- Embedding of `cleanupOldJobs` (src/dist/index.js:116-145): collect the
ids of records with `now - createdAt > JOB_RETENTION_MS` (strictly), then
delete each one's local directory and registry entry.  R2 files are
untouched. -/
def cleanupOldJobs (now : Int) (s : ServerState) : ServerState :=
  let expired := s.registry.filter (fun p => now - p.2.createdAt > JOB_RETENTION_MS)
  { registry := s.registry.filter (fun p => ¬(now - p.2.createdAt > JOB_RETENTION_MS)),
    localDirs := s.localDirs.filter (fun d => !(expired.any (fun p => p.2.directory == d))),
    remoteKeys := s.remoteKeys }

/-- Embedding of `deleteJob` (src/dist/index.js:150-168): `false` when the
id is not registered; otherwise remove the local directory and the
registry entry and return `true`.  R2 files are untouched. -/
def deleteJob (jobId : String) (s : ServerState) : Bool × ServerState :=
  match regGet s.registry jobId with
  | none => (false, s)
  | some job =>
      (true, { registry := regDelete s.registry jobId,
               localDirs := s.localDirs.filter (fun d => !(d == job.directory)),
               remoteKeys := s.remoteKeys })

/-! ## Parameter validation for the download endpoints -/

/-- `[a-zA-Z0-9-]`, the character class of `isValidJobId`
(src/dist/index.js:103). -/
def jobIdChar (c : Char) : Bool := c.isAlphanum || c == '-'

/-- Embedding of `isValidJobId` (src/dist/index.js:101-104): the regex
`^[a-zA-Z0-9-]+$`. -/
def isValidJobId (jobId : String) : Bool :=
  !jobId.data.isEmpty && jobId.data.all jobIdChar

/-- `[a-zA-Z0-9_-]`, the stem character class of `isValidFileName`
(src/dist/index.js:110). -/
def fileStemChar (c : Char) : Bool := c.isAlphanum || c == '_' || c == '-'

/-- Embedding of `isValidFileName` (src/dist/index.js:108-111): the regex
`^[a-zA-Z0-9_-]+\x2epdf$` — a nonempty stem of safe characters followed
by the literal `.pdf`. -/
def isValidFileName (fileName : String) : Bool :=
  let cs := fileName.data
  decide (5 ≤ cs.length) && (cs.drop (cs.length - 4) == ['.', 'p', 'd', 'f'])
    && (cs.take (cs.length - 4)).all fileStemChar

/-! ## HTTP handlers -/

/-- Responses of the artifact download endpoint
(`GET /jobs/:jobId/:fileName`, src/dist/index.js:479-526). -/
inductive DownloadResp where
  | invalidJobId
  | invalidFileName
  | jobNotFound
  | fileNotFound
  | fileStream (directory : String) (fileName : String)
  deriving DecidableEq, Repr

/-- Embedding of `app.get('/jobs/:jobId/:fileName')`: both parameters are
validated before the registry lookup; the filesystem (`existsSync` /
`createReadStream`) is only touched afterwards.  The second component
records whether any filesystem access happened. -/
def downloadHandler (s : ServerState) (fileOnDisk : String → String → Bool)
    (jobId fileName : String) : DownloadResp × Bool :=
  if !isValidJobId jobId then (.invalidJobId, false)
  else if !isValidFileName fileName then (.invalidFileName, false)
  else
    match regGet s.registry jobId with
    | none => (.jobNotFound, false)
    | some job =>
      if fileOnDisk job.directory fileName then (.fileStream job.directory fileName, true)
      else (.fileNotFound, true)

/-- Responses of the manifest endpoint. -/
inductive ManifestResp where
  | invalidJobId
  | notFound
  | found (m : Manifest)
  deriving DecidableEq, Repr

/-- Embedding of `app.get('/jobs/:jobId/manifest.json')`
(src/dist/index.js:534-562). -/
def getManifestHandler (s : ServerState) (jobId : String) : ManifestResp :=
  if !isValidJobId jobId then .invalidJobId
  else
    match regGet s.registry jobId with
    | none => .notFound
    | some job => .found job.manifest

/-- Responses of the job deletion endpoint. -/
inductive DeleteResp where
  | invalidJobId
  | notFound
  | deleted
  deriving DecidableEq, Repr

/-- Embedding of `app.delete('/jobs/:jobId')` (src/dist/index.js:570-599). -/
def deleteJobHandler (s : ServerState) (jobId : String) : DeleteResp × ServerState :=
  if !isValidJobId jobId then (.invalidJobId, s)
  else
    match deleteJob jobId s with
    | (false, s1) => (.notFound, s1)
    | (true, s1) => (.deleted, s1)

/-- The inputs that determine the control flow of one `POST /split`
request (src/dist/index.js:315-471): whether a file was uploaded (line
324), whether the ranges field parses to a non-empty array (lines
332-347), the `?format=zip` selector (line 350), whether
`splitPdfFromBuffer` resolves (line 363), whether `archive.finalize()`
succeeds (line 414), and the manifest / uploaded keys computed from the
results (lines 370, 433). -/
structure SplitReq where
  hasFile : Bool
  rangesOk : Bool
  useZipFormat : Bool
  splitSucceeds : Bool
  archiveOk : Bool
  manifest : Manifest
  r2Keys : List String
  deriving DecidableEq, Repr

/-- What one `POST /split` request responds and registers. -/
structure SplitRespState where
  errorResponse : Bool
  registeredJobId : Option String
  uploadFlagPassed : Option Bool
  deriving DecidableEq, Repr

/-- Embedding of the `POST /split` handler (src/dist/index.js:315-471).
`newJobId` and `newDir` stand for `Date.now().toString()` and the fresh
output directory of lines 352-353; the local `jobId` / `outputDir`
`Option`s mirror the `null`-initialized variables of lines 317-318, so
that the catch-handler cleanup guard `outputDir && !jobId` (line 460) is
reproduced exactly.  The returned state reflects the request after the
response and the `setImmediate` cleanup of ZIP mode.
`uploadFlagPassed` records the `uploadToR2Storage` argument handed to
`splitPdfFromBuffer` (line 363), `none` when it was never called. -/
def splitHandler (req : SplitReq) (s : ServerState) (now : Int)
    (newJobId newDir : String) : SplitRespState × ServerState :=
  let s1 := cleanupOldJobs now s
  if !req.hasFile then
    ({ errorResponse := true, registeredJobId := none, uploadFlagPassed := none }, s1)
  else if !req.rangesOk then
    ({ errorResponse := true, registeredJobId := none, uploadFlagPassed := none }, s1)
  else
    let jobId : Option String := some newJobId
    let outputDir : Option String := some newDir
    let s2 : ServerState := { s1 with localDirs := s1.localDirs ++ [newDir] }
    if !req.splitSucceeds then
      let cleanupRuns := outputDir.isSome && jobId.isNone
      let s3 := if cleanupRuns
        then { s2 with localDirs := s2.localDirs.filter (fun d => !(d == newDir)) }
        else s2
      ({ errorResponse := true, registeredJobId := none,
         uploadFlagPassed := some (!req.useZipFormat) }, s3)
    else if req.useZipFormat then
      if req.archiveOk then
        ({ errorResponse := false, registeredJobId := none,
           uploadFlagPassed := some false },
         { s2 with localDirs := s2.localDirs.filter (fun d => !(d == newDir)) })
      else
        let cleanupRuns := outputDir.isSome && jobId.isNone
        let s3 := if cleanupRuns
          then { s2 with localDirs := s2.localDirs.filter (fun d => !(d == newDir)) }
          else s2
        ({ errorResponse := true, registeredJobId := none,
           uploadFlagPassed := some false }, s3)
    else
      let rec0 : JobRecord :=
        { jobId := newJobId, directory := newDir, createdAt := now,
          manifest := req.manifest, r2Keys := req.r2Keys }
      ({ errorResponse := false, registeredJobId := some newJobId,
         uploadFlagPassed := some true },
       { s2 with registry := regSet s2.registry newJobId rec0 })

/-! ## Registry lemmas -/

lemma regGet_cons (k : String) (v : JobRecord) (rest : Registry) (id0 : String) :
    regGet ((k, v) :: rest) id0 = if k == id0 then some v else regGet rest id0 := by
  unfold regGet
  by_cases hk : k == id0 <;> simp [List.find?_cons, hk]

lemma regGet_eq_none (reg : Registry) (id0 : String) (h : ∀ p ∈ reg, p.1 ≠ id0) :
    regGet reg id0 = none := by
  induction reg with
  | nil => rfl
  | cons hd tl ih =>
    obtain ⟨k, v⟩ := hd
    have hk : k ≠ id0 := h (k, v) (List.mem_cons_self _ _)
    rw [regGet_cons, if_neg (by simpa using hk)]
    exact ih (fun p hp => h p (List.mem_cons_of_mem _ hp))

lemma regGet_filter (q : String × JobRecord → Bool) :
    ∀ (reg : Registry), (reg.map Prod.fst).Nodup → ∀ (id0 : String),
      regGet (reg.filter q) id0 =
        match regGet reg id0 with
        | none => none
        | some r => if q (id0, r) then some r else none
  | [], _, id0 => rfl
  | (k, v) :: rest, hnd, id0 => by
    rw [List.map_cons, List.nodup_cons] at hnd
    obtain ⟨hknot, hnd2⟩ := hnd
    by_cases hk : k = id0
    · subst hk
      by_cases hq : q (k, v)
      · simp [List.filter_cons, hq, regGet_cons]
      · have hnone : regGet (rest.filter q) k = none := by
          apply regGet_eq_none
          intro p hp he
          exact hknot (List.mem_map.mpr ⟨p, List.mem_of_mem_filter hp, he⟩)
        simp [List.filter_cons, hq, regGet_cons, hnone]
    · have hrec := regGet_filter q rest hnd2 id0
      by_cases hq : q (k, v) <;>
        simp [List.filter_cons, hq, regGet_cons, hk, hrec]

lemma regGet_map_replace :
    ∀ (reg : Registry) (id0 : String) (rec0 : JobRecord),
      reg.any (fun p => p.1 == id0) = true →
      regGet (reg.map (fun p => if p.1 == id0 then (id0, rec0) else p)) id0 = some rec0
  | [], _, _, h => by cases h
  | (k, v) :: rest, id0, rec0, h => by
    by_cases hk : k = id0
    · subst hk
      simp [regGet_cons]
    · have hrest : rest.any (fun p => p.1 == id0) = true := by
        simpa [List.any_cons, hk] using h
      have hrec := regGet_map_replace rest id0 rec0 hrest
      simpa [regGet_cons, hk] using hrec

lemma regGet_append_single :
    ∀ (reg : Registry) (id0 : String) (rec0 : JobRecord),
      reg.any (fun p => p.1 == id0) = false →
      regGet (reg ++ [(id0, rec0)]) id0 = some rec0
  | [], id0, rec0, _ => by simp [regGet_cons]
  | (k, v) :: rest, id0, rec0, h => by
    rw [List.any_cons] at h
    have hk : (k == id0) = false := by
      cases hkb : (k == id0) <;> simp_all
    have hrest : rest.any (fun p => p.1 == id0) = false := by
      cases hb : rest.any (fun p => p.1 == id0) <;> simp_all
    rw [List.cons_append, regGet_cons, if_neg (by simp [hk])]
    exact regGet_append_single rest id0 rec0 hrest

lemma regGet_regSet_self (reg : Registry) (id0 : String) (rec0 : JobRecord) :
    regGet (regSet reg id0 rec0) id0 = some rec0 := by
  unfold regSet
  by_cases h : reg.any (fun p => p.1 == id0) = true
  · rw [if_pos h]
    exact regGet_map_replace reg id0 rec0 h
  · rw [if_neg h]
    exact regGet_append_single reg id0 rec0 (by cases hb : reg.any (fun p => p.1 == id0) <;> simp_all)

lemma regGet_regDelete_self (reg : Registry) (id0 : String) :
    regGet (regDelete reg id0) id0 = none := by
  apply regGet_eq_none
  intro p hp he
  have := List.of_mem_filter hp
  rw [he] at this
  simp at this

lemma cleanupOldJobs_regGet (now : Int) (s : ServerState)
    (hnd : (s.registry.map Prod.fst).Nodup) (id0 : String) :
    regGet (cleanupOldJobs now s).registry id0 =
      match regGet s.registry id0 with
      | none => none
      | some r => if now - r.createdAt > JOB_RETENTION_MS then none else some r := by
  show regGet (s.registry.filter _) id0 = _
  rw [regGet_filter _ s.registry hnd id0]
  cases regGet s.registry id0 with
  | none => rfl
  | some r =>
    by_cases h : now - r.createdAt > JOB_RETENTION_MS <;> simp [h]

/-! ## Behaviour of the split loop -/

lemma processRanges_spec {α : Type} (source : List α) (dir : PathC) (jid : String)
    (uf r2 : Bool) (oracle : String → Option String) :
    ∀ (ranges : List PageRange), (∀ r ∈ ranges, ValidRange r (source.length : Int)) →
      ∃ items tr,
        processRanges source dir jid uf r2 oracle ranges = (.ok items, tr)
        ∧ ∀ (i : Nat) (r : PageRange), ranges.get? i = some r →
            ∃ item w, items.get? i = some item ∧ tr.writes.get? i = some w
              ∧ item.pageCount = r.end_page - r.start_page + 1
              ∧ item.outputPath = joinPath dir (r.submission_id ++ ".pdf").data
              ∧ w.1 = joinPath dir (r.submission_id ++ ".pdf").data
              ∧ w.2 = (source.drop (r.start_page - 1).toNat).take
                  (r.end_page - r.start_page + 1).toNat
              ∧ (w.2.length : Int) = r.end_page - r.start_page + 1
  | [], _ => ⟨[], ⟨[], []⟩, rfl, by intro i r h; simp at h⟩
  | r :: rs, hval => by
    obtain ⟨ht, hs1, hse, hst, het⟩ := hval r (List.mem_cons_self _ _)
    have hex := extractPages_eq source r hs1 hse het
    obtain ⟨items, tr, heq, hprop⟩ :=
      processRanges_spec source dir jid uf r2 oracle rs
        (fun x hx => hval x (List.mem_cons_of_mem _ hx))
    have hdoc_len : ((((source.drop (r.start_page - 1).toNat).take
          (r.end_page - r.start_page + 1).toNat).length : Nat) : Int) =
        r.end_page - r.start_page + 1 := by
      rw [List.length_take, List.length_drop]
      omega
    refine ⟨{ submission_id := r.submission_id,
              outputPath := joinPath dir (r.submission_id ++ ".pdf").data,
              fileName := r.submission_id ++ ".pdf",
              pageCount := r.end_page - r.start_page + 1,
              r2Url := if uf && r2 then oracle (generateR2Key jid (r.submission_id ++ ".pdf"))
                else none,
              r2Key := if uf && r2 then some (generateR2Key jid (r.submission_id ++ ".pdf"))
                else none } :: items,
           ⟨(joinPath dir (r.submission_id ++ ".pdf").data,
             (source.drop (r.start_page - 1).toNat).take
               (r.end_page - r.start_page + 1).toNat) :: tr.writes,
            (if uf && r2 then [generateR2Key jid (r.submission_id ++ ".pdf")] else []) ++
              tr.uploads⟩,
           ?_, ?_⟩
    · unfold processRanges
      rw [hex, heq]
    · intro i rr hget
      cases i with
      | zero =>
        have hrr : r = rr := by simpa using hget
        subst hrr
        exact ⟨_, _, rfl, rfl, rfl, rfl, rfl, rfl, hdoc_len⟩
      | succ i0 =>
        exact hprop i0 rr (by simpa using hget)

lemma processRanges_no_uploads {α : Type} (source : List α) (dir : PathC) (jid : String)
    (r2 : Bool) (oracle : String → Option String) :
    ∀ (ranges : List PageRange),
      ((processRanges source dir jid false r2 oracle ranges).2).uploads = []
  | [] => rfl
  | r :: rs => by
    unfold processRanges
    cases hex : extractPages source (pageIndices r.start_page r.end_page) with
    | none => rfl
    | some doc =>
      have hrec := processRanges_no_uploads source dir jid r2 oracle rs
      cases hp : processRanges source dir jid false r2 oracle rs with
      | mk exc tr =>
        rw [hp] at hrec
        cases exc <;> simpa using hrec

lemma splitPdf_no_uploads {α : Type} (pdfBuffer : Option (List α)) (ranges : List PageRange)
    (dir : PathC) (jid : String) (r2 : Bool) (oracle : String → Option String) :
    ((splitPdfFromBuffer pdfBuffer ranges dir jid false r2 oracle).2).uploads = [] := by
  cases pdfBuffer with
  | none => rfl
  | some source =>
    simp only [splitPdfFromBuffer]
    cases hv : validateRanges ranges (source.length : Int) with
    | error e => rfl
    | ok u =>
      cases u
      have hrec := processRanges_no_uploads source dir jid r2 oracle ranges
      cases hp : processRanges source dir jid false r2 oracle ranges with
      | mk exc tr =>
        rw [hp] at hrec
        cases exc <;> simpa using hrec

/-! ## Safe-character facts about the download parameter validators -/

/-- Spec-side: the safe character set of §6 — alphanumeric plus the
limited punctuation (`_`, `-`, `.`) that can appear in a valid name. -/
def fileSafeChar (c : Char) : Bool := c.isAlphanum || c == '_' || c == '-' || c == '.'

/-- Spec-side: the string terminates in the `.pdf` extension. -/
def EndsInPdf (s : String) : Prop :=
  ∃ pre : List Char, s.data = pre ++ ['.', 'p', 'd', 'f']

lemma isValidFileName_split (fileName : String) (h : isValidFileName fileName = true) :
    ∃ stem : List Char, fileName.data = stem ++ ['.', 'p', 'd', 'f']
      ∧ stem ≠ [] ∧ ∀ c ∈ stem, fileStemChar c = true := by
  unfold isValidFileName at h
  simp only [Bool.and_eq_true, decide_eq_true_eq, List.all_eq_true, beq_iff_eq] at h
  obtain ⟨⟨hlen, hdrop⟩, hall⟩ := h
  refine ⟨fileName.data.take (fileName.data.length - 4), ?_, ?_, hall⟩
  · conv_lhs => rw [← List.take_append_drop (fileName.data.length - 4) fileName.data]
    rw [hdrop]
  · intro hemp
    have hlen0 := congrArg List.length hemp
    rw [List.length_take] at hlen0
    simp only [List.length_nil] at hlen0
    omega

lemma fileSafeChar_of_stem (c : Char) (h : fileStemChar c = true) : fileSafeChar c = true := by
  unfold fileStemChar at h
  unfold fileSafeChar
  simp only [Bool.or_eq_true] at h ⊢
  tauto

lemma valid_fileName_chars (fileName : String) (h : isValidFileName fileName = true) :
    ∀ c ∈ fileName.data, fileSafeChar c = true := by
  obtain ⟨stem, hsplit, _, hstem⟩ := isValidFileName_split fileName h
  intro c hc
  rw [hsplit] at hc
  rcases List.mem_append.mp hc with hs | hp
  · exact fileSafeChar_of_stem c (hstem c hs)
  · fin_cases hp <;> decide

lemma endsInPdf_of_valid (fileName : String) (h : isValidFileName fileName = true) :
    EndsInPdf fileName := by
  obtain ⟨stem, hsplit, _, _⟩ := isValidFileName_split fileName h
  exact ⟨stem, hsplit⟩

lemma joinPath_no_sep (dir : PathC) (fname : List Char)
    (hdir : ∀ c ∈ dir, CleanComp c) (hf : '/' ∉ fname) (hclean : CleanComp fname) :
    joinPath dir fname = dir ++ [fname] := by
  unfold joinPath
  rw [splitSlash_no_sep fname hf]
  apply normComps_clean
  intro c hc
  rcases List.mem_append.mp hc with h | h
  · exact hdir c h
  · rw [List.mem_singleton.mp h]
    exact hclean

/-! ## Sample data for concrete instantiations -/

/-- A concrete registered record used to instantiate the registry claims. -/
def sampleRecord : JobRecord :=
  ⟨"123", "d123", 1000, ⟨3, 1, [⟨"a", "a.pdf", 3, "u"⟩]⟩, []⟩

/-- A server state holding exactly `sampleRecord`. -/
def sampleState : ServerState :=
  ⟨[("123", sampleRecord)], ["d123"], ["k0"]⟩

/-- Ranges used to instantiate the validator claims: a valid range
followed by one whose `end_page` precedes its `start_page`. -/
def c3Ranges : List PageRange := [⟨"a", 1, 2⟩, ⟨"b", 3, 1⟩]

/-! ## Claims -/

/-- C1 (code defect).  The claim says a failed JSON-mode split deletes the
job's local output directory before the error response.  In the code,
`jobId` is assigned (line 352) before `outputDir` (line 353), so in the
catch handler the guard `outputDir && !jobId` (line 460) is always false
once the directory exists: here a request whose `splitPdfFromBuffer` call
throws ends with the error response sent, no job registered, and the
directory still on disk. -/
theorem claim_C1_failed_json_request_keeps_directory :
    (splitHandler ⟨true, true, false, false, true, ⟨0, 0, []⟩, []⟩
        ⟨[], [], []⟩ 0 "1712000000000" "tmp-out-1712000000000").1.errorResponse = true
    ∧ (splitHandler ⟨true, true, false, false, true, ⟨0, 0, []⟩, []⟩
        ⟨[], [], []⟩ 0 "1712000000000" "tmp-out-1712000000000").1.registeredJobId = none
    ∧ "tmp-out-1712000000000" ∈
        (splitHandler ⟨true, true, false, false, true, ⟨0, 0, []⟩, []⟩
          ⟨[], [], []⟩ 0 "1712000000000" "tmp-out-1712000000000").2.localDirs := by
  decide

/-- C2: when any range fails validation, `splitPdfFromBuffer` returns the
validation error with an empty side-effect trace: no artifact is written
(and no upload attempted), because validation is a pre-pass completed
before the write loop starts. -/
theorem claim_C2_no_writes_on_invalid_range {α : Type} (source : List α)
    (ranges : List PageRange) (outputDir : PathC) (jobId : String)
    (uploadFlag r2Enabled : Bool) (oracle : String → Option String) (e : RangeError)
    (h : validateRanges ranges (source.length : Int) = .error e) :
    splitPdfFromBuffer (some source) ranges outputDir jobId uploadFlag r2Enabled oracle =
      (.error (.rangeError e), ⟨[], []⟩) := by
  simp only [splitPdfFromBuffer]
  rw [h]

/-- Witness for C2: a list whose second range has `start_page = 0` produces
the validation error and an empty trace. -/
theorem claim_C2_witness :
    validateRanges [⟨"a", 1, 2⟩, ⟨"b", 0, 1⟩] ((([10, 20] : List Nat).length : Nat) : Int) =
        .error ⟨.bySubmissionId "b", .startPageTooSmall⟩
    ∧ splitPdfFromBuffer (some ([10, 20] : List Nat)) [⟨"a", 1, 2⟩, ⟨"b", 0, 1⟩] [] "j"
        true true (fun _ => none) =
      (.error (.rangeError ⟨.bySubmissionId "b", .startPageTooSmall⟩), ⟨[], []⟩) :=
  ⟨by decide,
   claim_C2_no_writes_on_invalid_range [10, 20] [⟨"a", 1, 2⟩, ⟨"b", 0, 1⟩] [] "j"
     true true (fun _ => none) ⟨.bySubmissionId "b", .startPageTooSmall⟩ (by decide)⟩

/-- C3: the validator accepts the whole list iff every range satisfies the
five rules; otherwise it fails on the first violating range in list
order, the error names that range by `submission_id` (by list index when
the identifier itself is the violation, rule 1), and the reported rule is
the first broken one in the order (1) empty id, (2) start < 1,
(3) end < start, (4) start > total, (5) end > total. -/
theorem claim_C3_validator_first_violation (ranges : List PageRange) (totalPages : Int) :
    (validateRanges ranges totalPages = .ok () ↔ ∀ r ∈ ranges, ValidRange r totalPages)
    ∧ (∀ e, validateRanges ranges totalPages = .error e →
        ∃ i, ∃ hi : i < ranges.length,
          (∀ j (hj : j < i), ValidRange (ranges.get ⟨j, Nat.lt_trans hj hi⟩) totalPages)
          ∧ ∃ rule, firstBrokenRule (ranges.get ⟨i, hi⟩) totalPages = some rule
              ∧ e = expectedError i (ranges.get ⟨i, hi⟩) rule) := by
  constructor
  · exact validateRangesAux_ok_iff totalPages ranges 0
  · intro e he
    obtain ⟨i, hi, hpre, rule, hrule, herr⟩ := validateRangesAux_error totalPages ranges 0 e he
    exact ⟨i, hi, hpre, rule, hrule, by simpa using herr⟩

/-- Witness for C3: `c3Ranges` over a 5-page document fails on index 1 with
rule (3), named by `submission_id` "b". -/
theorem claim_C3_witness :
    validateRanges c3Ranges 5 = .error ⟨.bySubmissionId "b", .endBeforeStart⟩
    ∧ ∃ i, ∃ hi : i < c3Ranges.length,
        (∀ j (hj : j < i), ValidRange (c3Ranges.get ⟨j, Nat.lt_trans hj hi⟩) 5)
        ∧ ∃ rule, firstBrokenRule (c3Ranges.get ⟨i, hi⟩) 5 = some rule
            ∧ (⟨.bySubmissionId "b", .endBeforeStart⟩ : RangeError) =
                expectedError i (c3Ranges.get ⟨i, hi⟩) rule :=
  ⟨by decide,
   (claim_C3_validator_first_violation c3Ranges 5).2
     ⟨.bySubmissionId "b", .endBeforeStart⟩ (by decide)⟩

/-- C4: for a list of validated ranges, `splitPdfFromBuffer` succeeds and,
for each range, the written document is exactly the source pages
`start_page..end_page` (1-indexed, realised through the 0-indexed
`pageIndices`) in original order with no other pages, and the reported
`pageCount` equals `end_page - start_page + 1` (which the written
document's length matches). -/
theorem claim_C4_extraction_exact_pages {α : Type} (source : List α)
    (ranges : List PageRange) (dir : PathC) (jid : String) (uf r2 : Bool)
    (oracle : String → Option String)
    (hval : ∀ r ∈ ranges, ValidRange r (source.length : Int)) :
    ∃ items tr,
      splitPdfFromBuffer (some source) ranges dir jid uf r2 oracle =
          (.ok ((source.length : Int), items), tr)
      ∧ ∀ (i : Nat) (r : PageRange), ranges.get? i = some r →
          ∃ item w, items.get? i = some item ∧ tr.writes.get? i = some w
            ∧ item.pageCount = r.end_page - r.start_page + 1
            ∧ w.2 = (source.drop (r.start_page - 1).toNat).take
                (r.end_page - r.start_page + 1).toNat
            ∧ (w.2.length : Int) = r.end_page - r.start_page + 1 := by
  obtain ⟨items, tr, heq, hprop⟩ := processRanges_spec source dir jid uf r2 oracle ranges hval
  have hok : validateRanges ranges (source.length : Int) = .ok () := by
    unfold validateRanges
    exact (validateRangesAux_ok_iff _ ranges 0).mpr hval
  refine ⟨items, tr, ?_, ?_⟩
  · simp only [splitPdfFromBuffer]
    rw [hok, heq]
  · intro i r hget
    obtain ⟨item, w, h1, h2, h3, _, _, h6, h7⟩ := hprop i r hget
    exact ⟨item, w, h1, h2, h3, h6, h7⟩

/-- Witness for C4: splitting a 4-page document at range 2..3 yields one
artifact holding exactly pages 2 and 3 and `pageCount = 2`. -/
theorem claim_C4_witness :
    ∃ items tr,
      splitPdfFromBuffer (some ([10, 20, 30, 40] : List Nat)) [⟨"a", 2, 3⟩] [] "j"
          false false (fun _ => none) =
        (.ok ((([10, 20, 30, 40] : List Nat).length : Int), items), tr)
      ∧ ∀ (i : Nat) (r : PageRange), ([⟨"a", 2, 3⟩] : List PageRange).get? i = some r →
          ∃ item w, items.get? i = some item ∧ tr.writes.get? i = some w
            ∧ item.pageCount = r.end_page - r.start_page + 1
            ∧ w.2 = (([10, 20, 30, 40] : List Nat).drop (r.start_page - 1).toNat).take
                (r.end_page - r.start_page + 1).toNat
            ∧ (w.2.length : Int) = r.end_page - r.start_page + 1 :=
  claim_C4_extraction_exact_pages [10, 20, 30, 40] [⟨"a", 2, 3⟩] [] "j" false false
    (fun _ => none) (by decide)

/-- C5 counterexample: registration is `jobRegistry.set`, which does not
fail on an existing key: with "1" already mapped to a record with
directory "dirA", registering "1" again succeeds and the id now maps to
the new record (directory "dirB") — the mapping was overwritten, not
rejected with a `ConflictError`. -/
theorem claim_C5_counterexample_set_overwrites :
    regGet (regSet (regSet [] "1" ⟨"1", "dirA", 0, ⟨0, 0, []⟩, []⟩) "1"
        ⟨"1", "dirB", 5, ⟨0, 0, []⟩, []⟩) "1" = some ⟨"1", "dirB", 5, ⟨0, 0, []⟩, []⟩
    ∧ (⟨"1", "dirB", 5, ⟨0, 0, []⟩, []⟩ : JobRecord) ≠ ⟨"1", "dirA", 0, ⟨0, 0, []⟩, []⟩ := by
  decide

/-- C5 (amended): registering under a job id — present already or not —
always succeeds and leaves the id mapped to the newly supplied record
(`Map.set` insert-or-overwrite semantics); an existing mapping is thus
mutated by re-registration rather than protected by a `ConflictError`. -/
theorem claim_C5_amended_register_overwrites (reg : Registry) (jobId : String)
    (rec0 : JobRecord) :
    regGet (regSet reg jobId rec0) jobId = some rec0 :=
  regGet_regSet_self reg jobId rec0

/-- C6: with a 60-minute retention, the sweep removes exactly the registry
records whose age `now - created_at` strictly exceeds the retention
(reclaiming their directories) and leaves younger records intact; a job
registered at `T` is still retrievable after a sweep at `T + 59min` and
absent after a sweep at `T + 61min` (also through the manifest
endpoint). -/
theorem claim_C6_sweep_retention (s : ServerState) (id0 : String) (rec0 : JobRecord)
    (hnd : (s.registry.map Prod.fst).Nodup)
    (hget : regGet s.registry id0 = some rec0) :
    (∀ now : Int,
        regGet (cleanupOldJobs now s).registry id0 =
          if now - rec0.createdAt > JOB_RETENTION_MS then none else some rec0)
    ∧ (∀ now : Int, now - rec0.createdAt > JOB_RETENTION_MS →
        rec0.directory ∉ (cleanupOldJobs now s).localDirs)
    ∧ regGet (cleanupOldJobs (rec0.createdAt + 59 * 60 * 1000) s).registry id0 = some rec0
    ∧ regGet (cleanupOldJobs (rec0.createdAt + 61 * 60 * 1000) s).registry id0 = none
    ∧ (isValidJobId id0 = true →
        getManifestHandler (cleanupOldJobs (rec0.createdAt + 59 * 60 * 1000) s) id0 =
            .found rec0.manifest
        ∧ getManifestHandler (cleanupOldJobs (rec0.createdAt + 61 * 60 * 1000) s) id0 =
            .notFound) := by
  have hmain : ∀ now : Int,
      regGet (cleanupOldJobs now s).registry id0 =
        if now - rec0.createdAt > JOB_RETENTION_MS then none else some rec0 := by
    intro now
    rw [cleanupOldJobs_regGet now s hnd id0, hget]
  have h59cond : ¬(rec0.createdAt + 59 * 60 * 1000 - rec0.createdAt > JOB_RETENTION_MS) := by
    simp only [JOB_RETENTION_MS]
    omega
  have h61cond : rec0.createdAt + 61 * 60 * 1000 - rec0.createdAt > JOB_RETENTION_MS := by
    simp only [JOB_RETENTION_MS]
    omega
  have h59 : regGet (cleanupOldJobs (rec0.createdAt + 59 * 60 * 1000) s).registry id0 =
      some rec0 := by
    rw [hmain, if_neg h59cond]
  have h61 : regGet (cleanupOldJobs (rec0.createdAt + 61 * 60 * 1000) s).registry id0 =
      none := by
    rw [hmain, if_pos h61cond]
  have hdir : ∀ now : Int, now - rec0.createdAt > JOB_RETENTION_MS →
      rec0.directory ∉ (cleanupOldJobs now s).localDirs := by
    intro now hold hmem
    obtain ⟨q, hfind, hq2⟩ : ∃ q, s.registry.find? (fun p => p.1 == id0) = some q
        ∧ q.2 = rec0 := by
      unfold regGet at hget
      cases hf : s.registry.find? (fun p => p.1 == id0) with
      | none => rw [hf] at hget; cases hget
      | some q =>
        rw [hf] at hget
        exact ⟨q, rfl, by simpa using hget⟩
    have hqmem : q ∈ s.registry := List.mem_of_find?_eq_some hfind
    have hnotkeep := List.of_mem_filter hmem
    have hany : (s.registry.filter
        (fun p => now - p.2.createdAt > JOB_RETENTION_MS)).any
          (fun p => p.2.directory == rec0.directory) = true := by
      refine List.any_eq_true.mpr ⟨q, List.mem_filter.mpr ⟨hqmem, ?_⟩, ?_⟩
      · rw [hq2]
        exact decide_eq_true hold
      · rw [hq2]
        exact beq_self_eq_true _
    rw [hany] at hnotkeep
    cases hnotkeep
  have hman : isValidJobId id0 = true →
      getManifestHandler (cleanupOldJobs (rec0.createdAt + 59 * 60 * 1000) s) id0 =
          .found rec0.manifest
      ∧ getManifestHandler (cleanupOldJobs (rec0.createdAt + 61 * 60 * 1000) s) id0 =
          .notFound := by
    intro hv
    constructor
    · unfold getManifestHandler
      rw [hv, h59]
      rfl
    · unfold getManifestHandler
      rw [hv, h61]
      rfl
  exact ⟨hmain, hdir, h59, h61, hman⟩

/-- Witness for C6: `sampleRecord`, registered at its creation time 1000,
survives a sweep 59 minutes later and is gone after a sweep 61 minutes
later. -/
theorem claim_C6_witness :
    regGet (cleanupOldJobs (sampleRecord.createdAt + 59 * 60 * 1000) sampleState).registry
        "123" = some sampleRecord
    ∧ regGet (cleanupOldJobs (sampleRecord.createdAt + 61 * 60 * 1000) sampleState).registry
        "123" = none :=
  ⟨(claim_C6_sweep_retention sampleState "123" sampleRecord (by decide) (by decide)).2.2.1,
   (claim_C6_sweep_retention sampleState "123" sampleRecord (by decide) (by decide)).2.2.2.1⟩

/-- C7: deleting a registered job succeeds, removes the registry entry and
the local directory, leaves remote keys untouched; a manifest fetch for
the id afterwards is not-found, a second delete returns the not-found
signal with the state unchanged (as does deleting any unregistered id),
and the deletion endpoint maps this to its not-found response. -/
theorem claim_C7_delete_idempotent (s : ServerState) (id0 : String) (rec0 : JobRecord)
    (hget : regGet s.registry id0 = some rec0)
    (hvalid : isValidJobId id0 = true) :
    (deleteJob id0 s).1 = true
    ∧ regGet (deleteJob id0 s).2.registry id0 = none
    ∧ rec0.directory ∉ (deleteJob id0 s).2.localDirs
    ∧ (deleteJob id0 s).2.remoteKeys = s.remoteKeys
    ∧ getManifestHandler (deleteJob id0 s).2 id0 = .notFound
    ∧ deleteJob id0 (deleteJob id0 s).2 = (false, (deleteJob id0 s).2)
    ∧ deleteJobHandler (deleteJob id0 s).2 id0 = (.notFound, (deleteJob id0 s).2)
    ∧ (∀ (t : ServerState) (j : String), regGet t.registry j = none →
        deleteJob j t = (false, t)) := by
  have hgen : ∀ (t : ServerState) (j : String), regGet t.registry j = none →
      deleteJob j t = (false, t) := by
    intro t j hj
    unfold deleteJob
    rw [hj]
  have hdel : deleteJob id0 s =
      (true, ⟨regDelete s.registry id0,
              s.localDirs.filter (fun d => !(d == rec0.directory)), s.remoteKeys⟩) := by
    unfold deleteJob
    rw [hget]
  have hnone : regGet (regDelete s.registry id0) id0 = none :=
    regGet_regDelete_self s.registry id0
  rw [hdel]
  refine ⟨rfl, hnone, ?_, rfl, ?_, ?_, ?_, hgen⟩
  · intro hmem
    have h2 := List.of_mem_filter hmem
    simp at h2
  · unfold getManifestHandler
    rw [hvalid]
    show (match regGet (regDelete s.registry id0) id0 with
          | none => ManifestResp.notFound
          | some job => ManifestResp.found job.manifest) = ManifestResp.notFound
    rw [hnone]
  · exact hgen _ id0 hnone
  · unfold deleteJobHandler
    rw [hvalid]
    show (match deleteJob id0 ⟨regDelete s.registry id0,
            s.localDirs.filter (fun d => !(d == rec0.directory)), s.remoteKeys⟩ with
          | (false, s1) => (DeleteResp.notFound, s1)
          | (true, s1) => (DeleteResp.deleted, s1)) = _
    rw [hgen _ id0 hnone]

/-- Witness for C7: deleting the sample job succeeds, and its registry
entry is gone afterwards. -/
theorem claim_C7_witness :
    (deleteJob "123" sampleState).1 = true
    ∧ regGet (deleteJob "123" sampleState).2.registry "123" = none :=
  ⟨(claim_C7_delete_idempotent sampleState "123" sampleRecord (by decide) (by decide)).1,
   (claim_C7_delete_idempotent sampleState "123" sampleRecord (by decide) (by decide)).2.1⟩

/-- C8 (partly a code defect).  For archive-mode requests: the handler
passes `uploadToR2Storage = false` and under that flag `splitPdfFromBuffer`
attempts no upload at all; no registry entry is ever created, and after a
successful stream the backing directory is deleted.  But when the archive
stream FAILS, the error lands in the catch handler whose guard
`outputDir && !jobId` (line 460) is false, so — contrary to the claim —
the backing directory survives the failed request. -/
theorem claim_C8_zip_mode_footprint :
    (∀ (pdfBuffer : Option (List Nat)) (ranges : List PageRange) (dir : PathC)
        (jid : String) (r2 : Bool) (oracle : String → Option String),
        ((splitPdfFromBuffer pdfBuffer ranges dir jid false r2 oracle).2).uploads = [])
    ∧ ((splitHandler ⟨true, true, true, true, true, ⟨0, 0, []⟩, []⟩
          ⟨[], [], []⟩ 0 "1712000000001" "tmp-out-zip").1.uploadFlagPassed = some false
        ∧ (splitHandler ⟨true, true, true, true, true, ⟨0, 0, []⟩, []⟩
            ⟨[], [], []⟩ 0 "1712000000001" "tmp-out-zip").1.registeredJobId = none
        ∧ "tmp-out-zip" ∉
            (splitHandler ⟨true, true, true, true, true, ⟨0, 0, []⟩, []⟩
              ⟨[], [], []⟩ 0 "1712000000001" "tmp-out-zip").2.localDirs)
    ∧ ((splitHandler ⟨true, true, true, true, false, ⟨0, 0, []⟩, []⟩
          ⟨[], [], []⟩ 0 "1712000000001" "tmp-out-zip").1.registeredJobId = none
        ∧ "tmp-out-zip" ∈
            (splitHandler ⟨true, true, true, true, false, ⟨0, 0, []⟩, []⟩
              ⟨[], [], []⟩ 0 "1712000000001" "tmp-out-zip").2.localDirs) := by
  refine ⟨?_, by decide, by decide⟩
  intro pdfBuffer ranges dir jid r2 oracle
  exact splitPdf_no_uploads pdfBuffer ranges dir jid r2 oracle

/-- C9: any `job_id` containing a character outside `[a-zA-Z0-9-]` (or
empty), any `file_name` containing a character outside the safe set
(alphanumeric, `_`, `-`, `.`) — which covers `../` and absolute paths —
and any `file_name` not terminating in `.pdf`, is rejected by the
download endpoint with a client error before any filesystem access. -/
theorem claim_C9_download_validation (s : ServerState)
    (fileOnDisk : String → String → Bool) (jobId fileName : String)
    (hbad : (∃ c ∈ jobId.data, jobIdChar c = false) ∨ jobId.data = []
        ∨ (∃ c ∈ fileName.data, fileSafeChar c = false) ∨ ¬ EndsInPdf fileName) :
    (downloadHandler s fileOnDisk jobId fileName).2 = false
    ∧ ((downloadHandler s fileOnDisk jobId fileName).1 = .invalidJobId
        ∨ (downloadHandler s fileOnDisk jobId fileName).1 = .invalidFileName) := by
  by_cases hj : isValidJobId jobId = true
  · have hf : isValidFileName fileName = false := by
      cases hb : isValidFileName fileName
      · rfl
      · exfalso
        rcases hbad with hbadj | hempty | hbadf | hnpdf
        · obtain ⟨c, hc, hnc⟩ := hbadj
          unfold isValidJobId at hj
          simp only [Bool.and_eq_true, List.all_eq_true] at hj
          rw [hj.2 c hc] at hnc
          cases hnc
        · unfold isValidJobId at hj
          simp [hempty] at hj
        · obtain ⟨c, hc, hnc⟩ := hbadf
          rw [valid_fileName_chars fileName hb c hc] at hnc
          cases hnc
        · exact hnpdf (endsInPdf_of_valid fileName hb)
    have hres : downloadHandler s fileOnDisk jobId fileName = (.invalidFileName, false) := by
      unfold downloadHandler
      rw [hj, hf]
      rfl
    rw [hres]
    exact ⟨rfl, Or.inr rfl⟩
  · have hj2 : isValidJobId jobId = false := by
      cases hb : isValidJobId jobId
      · rfl
      · exact absurd hb hj
    have hres : downloadHandler s fileOnDisk jobId fileName = (.invalidJobId, false) := by
      unfold downloadHandler
      rw [hj2]
      rfl
    rw [hres]
    exact ⟨rfl, Or.inl rfl⟩

/-- Witness for C9: a path-traversal file name (`../secret.pdf`, which
contains `/`) is rejected with a client error and no filesystem access. -/
theorem claim_C9_witness :
    (downloadHandler ⟨[], [], []⟩ (fun _ _ => true) "1337" "../secret.pdf").2 = false
    ∧ ((downloadHandler ⟨[], [], []⟩ (fun _ _ => true) "1337" "../secret.pdf").1 =
          .invalidJobId
        ∨ (downloadHandler ⟨[], [], []⟩ (fun _ _ => true) "1337" "../secret.pdf").1 =
          .invalidFileName) :=
  claim_C9_download_validation ⟨[], [], []⟩ (fun _ _ => true) "1337" "../secret.pdf"
    (Or.inr (Or.inr (Or.inl ⟨'/', by decide, by decide⟩)))

/-- C10: every artifact's write path is `join(outputDir, submission_id ++ ".pdf")`;
validation restricts `submission_id` only to being nonempty after
trimming (no character-set restriction); a separator-free accepted id
therefore lands inside the job directory, while the accepted id
`"../../evil"` computes to a path outside it. -/
theorem claim_C10_write_path_traversal :
    (∀ (source : List Nat) (dir : PathC) (jid : String) (uf r2 : Bool)
        (oracle : String → Option String) (ranges : List PageRange),
        (∀ r ∈ ranges, ValidRange r (source.length : Int)) →
        ∃ items tr,
          processRanges source dir jid uf r2 oracle ranges = (.ok items, tr)
          ∧ ∀ (i : Nat) (r : PageRange), ranges.get? i = some r →
              ∃ w, tr.writes.get? i = some w
                ∧ w.1 = joinPath dir (r.submission_id ++ ".pdf").data)
    ∧ (∀ (sid : String) (p q t : Int) (i : Nat),
        trimString sid ≠ "" → 1 ≤ p → p ≤ q → q ≤ t →
        validatePageRange ⟨sid, p, q⟩ t i = .ok ())
    ∧ (∀ (dir : PathC) (sid : String), (∀ c ∈ dir, CleanComp c) →
        '/' ∉ sid.data →
        joinPath dir (sid ++ ".pdf").data = dir ++ [(sid ++ ".pdf").data])
    ∧ (ValidRange ⟨"../../evil", 1, 1⟩ 1
        ∧ ¬ List.IsPrefix (["tmp".data, "pdf-splitter-output".data, "123".data] : PathC)
            (joinPath ["tmp".data, "pdf-splitter-output".data, "123".data]
              (("../../evil" ++ ".pdf" : String)).data)) := by
  refine ⟨?_, ?_, ?_, by decide⟩
  · intro source dir jid uf r2 oracle ranges hval
    obtain ⟨items, tr, heq, hprop⟩ := processRanges_spec source dir jid uf r2 oracle ranges hval
    refine ⟨items, tr, heq, ?_⟩
    intro i r hget
    obtain ⟨item, w, _, hw, _, _, hw1, _, _⟩ := hprop i r hget
    exact ⟨w, hw, hw1⟩
  · intro sid p q t i hne hp hpq hqt
    exact (validatePageRange_ok_iff _ _ _).mpr ⟨hne, hp, hpq, le_trans hpq hqt, hqt⟩
  · intro dir sid hdir hsep
    apply joinPath_no_sep
    · exact hdir
    · rw [String.data_append]
      intro hmem
      rcases List.mem_append.mp hmem with h | h
      · exact hsep h
      · revert h
        decide
    · rw [String.data_append]
      have h4 : (".pdf" : String).data.length = 4 := by decide
      refine ⟨?_, ?_, ?_⟩ <;>
        · intro h
          have hlen := congrArg List.length h
          rw [List.length_append, h4] at hlen
          simp only [List.length_nil, List.length_cons] at hlen
          omega

/-- Witness for C10: the id `"student-1"` (no separator) is accepted and
its artifact path is directly inside the job directory. -/
theorem claim_C10_witness :
    validatePageRange ⟨"student-1", 1, 2⟩ 5 0 = .ok ()
    ∧ joinPath ["tmp".data] (("student-1" ++ ".pdf" : String)).data =
        ["tmp".data] ++ [(("student-1" ++ ".pdf" : String)).data] :=
  ⟨claim_C10_write_path_traversal.2.1 "student-1" 1 2 5 0 (by decide) (by decide)
     (by decide) (by decide),
   claim_C10_write_path_traversal.2.2.1 ["tmp".data] "student-1" (by decide) (by decide)⟩

end PdfSplitter
